import Mathlib

/-!
# Spectrum visualizer: log-frequency mapping, note naming and beam model

A shallow embedding of `src/fft_visualizer.cpp` (`FFTVisualizer`).

Conventions of the embedding.

* `float` values are real numbers: `log`, `exp`, `log10f`, `log2f`, `powf`, `sqrtf` are
  `Real.log`, `Real.exp`, `Real.logb 10`, `Real.logb 2`, `Real.rpow`, `Real.sqrt`.
  Rounding error is outside the model; where the C++ code would divide by zero the real
  model yields `0`, and the theorems below only use divisions whose divisor is shown to
  be non-zero. The infinities and NaN are added, in the section on the special values,
  for the argument of `freqToNote` and for the beam model.
* `std::vector<float>` is `List ℝ`; an indexed read is `List.getD _ _ 0`.
* The static members of the class, the file-level phosphor context pointer and the
  instance member `width` are the fields of `Visualizer`; every function takes the
  configuration and the visualizer explicitly and returns the updated visualizer.
* Calls into `Graphics::` only draw; they are not part of the state and are left out.
-/

namespace FFTVisualizer

/-! ## Data model -/

/-- The two static note-name arrays that `noteNames` may point to. -/
inductive NoteTable where
  | sharp
  | flat
  deriving DecidableEq, Repr

/-- The array `noteNamesSharp` of `updateCaches`. -/
def noteNamesSharp : List String :=
  ["C", "C#", "D", "D#", "E", "F"] ++
  ["F#", "G", "G#", "A", "A#", "B"]

/-- The array `noteNamesFlat` of `updateCaches`. -/
def noteNamesFlat : List String :=
  ["C", "Db", "D", "Eb", "E", "F"] ++
  ["Gb", "G", "Ab", "A", "Bb", "B"]

/-- The entries of the array a `noteNames` pointer refers to. -/
def NoteTable.names : NoteTable → List String
  | .sharp => noteNamesSharp
  | .flat => noteNamesFlat

/-- The fields of `Config::values().fft` read by the visualizer. -/
structure FFTConfig where
  min_freq : ℝ
  max_freq : ℝ
  min_db : ℝ
  max_db : ℝ
  slope_correction_db : ℝ
  beam_multiplier : ℝ
  stereo_mode : String
  note_key_mode : String
  enable_cqt : Bool
  enable_phosphor : Bool

/-- The configuration: `Config::getVersion()`, `Config::values().fft` and
`Config::values().phosphor.beam_energy`. -/
structure Config where
  version : Nat
  fft : FFTConfig
  beam_energy : ℝ

/-- The fields of `AudioData` read by `draw` (`audioDeltaTime` is `getAudioDeltaTime()`). -/
structure AudioData where
  sampleRate : ℝ
  windowHeight : ℝ
  audioDeltaTime : ℝ
  fftMagnitudesMid : List ℝ
  fftMagnitudesSide : List ℝ
  cqtMagnitudesMid : List ℝ
  cqtMagnitudesSide : List ℝ
  smoothedMagnitudesMid : List ℝ
  smoothedMagnitudesSide : List ℝ
  smoothedCqtMagnitudesMid : List ℝ
  smoothedCqtMagnitudesSide : List ℝ
  cqtFrequencies : List ℝ

/-- The mutable state: the static caches, the static point vectors, whether
`fftPhosphorContext` is non-null, and the panel `width`. -/
structure Visualizer where
  logMinFreq : ℝ
  logMaxFreq : ℝ
  logFreqRange : ℝ
  dbRange : ℝ
  noteNames : Option NoteTable
  lastConfigVersion : Nat
  fftPoints : List (ℝ × ℝ)
  alternateFFTPoints : List (ℝ × ℝ)
  phosphorContext : Bool
  width : Int

/-- The state given by the static initialisers, for a panel of the given width. -/
def Visualizer.initial (w : Int) : Visualizer :=
  { logMinFreq := 0, logMaxFreq := 0, logFreqRange := 0, dbRange := 0,
    noteNames := none, lastConfigVersion := 0,
    fftPoints := [], alternateFFTPoints := [], phosphorContext := false, width := w }

/-! ## `updateCaches` -/

/-- The function `FFTVisualizer::updateCaches`: recompute the cached values when the configuration
version differs from the last one seen. -/
noncomputable def updateCaches (cfg : Config) (s : Visualizer) : Visualizer :=
  if cfg.version ≠ s.lastConfigVersion then
    { s with
      noteNames := some (if cfg.fft.note_key_mode = "sharp" then NoteTable.sharp
                         else NoteTable.flat)
      lastConfigVersion := cfg.version
      logMinFreq := Real.log cfg.fft.min_freq
      logMaxFreq := Real.log cfg.fft.max_freq
      logFreqRange := Real.log cfg.fft.max_freq - Real.log cfg.fft.min_freq
      dbRange := cfg.fft.max_db - cfg.fft.min_db }
  else s

/-! ## The forward mapping of `draw` -/

/-- The constant `gainBase = 1.0f / (440.0f * 2.0f)`. -/
noncomputable def gainBase : ℝ := 1 / (440 * 2)

/-- The local `slope_k = slope_correction_db / 20.0f / log10f(2.0f)`. -/
noncomputable def slope_k (cfg : Config) : ℝ :=
  cfg.fft.slope_correction_db / 20 / Real.logb 10 2

/-- The local `gain = powf(freq * gainBase, slope_k)` of the mapping loops. -/
noncomputable def slopeGain (cfg : Config) (freq : ℝ) : ℝ :=
  Real.rpow (freq * gainBase) (slope_k cfg)

/-- The horizontal position of the mapping loops:
`logX = (log(freq) - logMinFreq) * invLogFreqRange; x = logX * width`
with `invLogFreqRange = 1.0f / logFreqRange`. -/
noncomputable def forwardX (s : Visualizer) (freq : ℝ) : ℝ :=
  (Real.log freq - s.logMinFreq) * (1 / s.logFreqRange) * (s.width : ℝ)

/-- The vertical position of the mapping loops, from the bin's magnitude:
slope correction, conversion to dB with the `1e-9` floor, scaling by
`invDbRange = 1.0f / dbRange` and the window height. -/
noncomputable def forwardY (cfg : Config) (s : Visualizer) (windowHeight freq magnitude : ℝ) : ℝ :=
  let magnitude := magnitude * slopeGain cfg freq
  let dB := 20 * Real.logb 10 (magnitude + 1e-9)
  (dB - cfg.fft.min_db) * (1 / s.dbRange) * windowHeight

/-- The frequency of a bin: read from the CQT frequency table, or
`static_cast<float>(bin) * freqScale` for the FFT. -/
noncomputable def binFreq (useCQT : Bool) (frequencies : List ℝ) (freqScale : ℝ) (bin : Nat) : ℝ :=
  if useCQT then frequencies.getD bin 0 else (bin : ℝ) * freqScale

/-- One iteration of a mapping loop: `none` when the bin is skipped by
`if (freq < min_freq || freq > max_freq) continue;`, the pushed point otherwise. -/
noncomputable def mapBin (cfg : Config) (s : Visualizer) (windowHeight : ℝ) (useCQT : Bool)
    (frequencies : List ℝ) (freqScale : ℝ) (magnitudes : List ℝ) (bin : Nat) : Option (ℝ × ℝ) :=
  let freq := binFreq useCQT frequencies freqScale bin
  if freq < cfg.fft.min_freq ∨ freq > cfg.fft.max_freq then none
  else some (forwardX s freq, forwardY cfg s windowHeight freq (magnitudes.getD bin 0))

/-- A mapping loop `for (bin = startBin; bin < magnitudes->size(); ++bin)` with
`startBin = useCQT ? 0 : 1`, collecting the pushed points in order. -/
noncomputable def mapBins (cfg : Config) (s : Visualizer) (windowHeight : ℝ) (useCQT : Bool)
    (frequencies : List ℝ) (freqScale : ℝ) (magnitudes : List ℝ) : List (ℝ × ℝ) :=
  let startBin := if useCQT then 0 else 1
  (List.range' startBin (magnitudes.length - startBin)).filterMap
    (mapBin cfg s windowHeight useCQT frequencies freqScale magnitudes)

/-! ## Source selection and stereo reconstruction of `draw` -/

/-- The flag `useCQT` of `draw`. -/
def useCQT (cfg : Config) (a : AudioData) : Bool :=
  cfg.fft.enable_cqt && !a.cqtMagnitudesMid.isEmpty && !a.cqtMagnitudesSide.isEmpty

/-- The flag `useFFT` of `draw`. -/
def useFFT (a : AudioData) : Bool :=
  !a.fftMagnitudesMid.isEmpty && !a.fftMagnitudesSide.isEmpty

/-- The flag `isLeftRightMode` of `draw`. -/
def isLeftRightMode (cfg : Config) : Bool :=
  decide (cfg.fft.stereo_mode = "leftright") && !cfg.fft.enable_phosphor

/-- The vector `leftMagnitudes` after the reconstruction loop over `mid.size()` bins. -/
def leftMagnitudes (mid side : List ℝ) : List ℝ :=
  (List.range mid.length).map (fun i => mid.getD i 0 - side.getD i 0)

/-- The vector `rightMagnitudes` after the reconstruction loop over `mid.size()` bins. -/
def rightMagnitudes (mid side : List ℝ) : List ℝ :=
  (List.range mid.length).map (fun i => mid.getD i 0 + side.getD i 0)

/-- The smoothed mid sequence of the selected source. -/
def sourceMid (a : AudioData) (cqt : Bool) : List ℝ :=
  if cqt then a.smoothedCqtMagnitudesMid else a.smoothedMagnitudesMid

/-- The smoothed side sequence of the selected source. -/
def sourceSide (a : AudioData) (cqt : Bool) : List ℝ :=
  if cqt then a.smoothedCqtMagnitudesSide else a.smoothedMagnitudesSide

/-- What `mainMagnitudes` points to once the source and the stereo mode are chosen. -/
def mainMagnitudes (cfg : Config) (a : AudioData) (cqt : Bool) : List ℝ :=
  if isLeftRightMode cfg then leftMagnitudes (sourceMid a cqt) (sourceSide a cqt)
  else sourceMid a cqt

/-- What `alternateMagnitudes` points to once the source and the stereo mode are chosen. -/
def alternateMagnitudes (cfg : Config) (a : AudioData) (cqt : Bool) : List ℝ :=
  if isLeftRightMode cfg then rightMagnitudes (sourceMid a cqt) (sourceSide a cqt)
  else sourceSide a cqt

/-! ## The beam model of `draw` -/

/-- The local `beamEnergy` of the phosphor branch: normalised over the area, scaled by
the beam multiplier and normalised over the frame time. -/
noncomputable def beamEnergy (cfg : Config) (a : AudioData) (s : Visualizer) (cqt : Bool) : ℝ :=
  let ref : ℝ := 400 * (if cqt then 300 else 1)
  let beamEnergy := cfg.beam_energy / ref * ((s.width : ℝ) * (if cqt then a.windowHeight else 1))
  let beamEnergy := beamEnergy * cfg.fft.beam_multiplier
  beamEnergy * a.audioDeltaTime / 0.016

/-- The local `segLen = std::max(sqrtf(dx * dx + dy * dy), 1e-12f)` of a segment. -/
noncomputable def segLen (p1 p2 : ℝ × ℝ) : ℝ :=
  let dx := p2.1 - p1.1
  let dy := p2.2 - p1.2
  max (Real.sqrt (dx * dx + dy * dy)) 1e-12

/-- The local `deltaT = 1.0f / audioData.sampleRate`, pushed to `dwellTimes`. -/
noncomputable def deltaT (a : AudioData) : ℝ := 1 / a.sampleRate

/-- The local `intensity` of a segment, pushed to `intensityLinear`. -/
noncomputable def segIntensity (cqt : Bool) (energy : ℝ) (a : AudioData) (p1 p2 : ℝ × ℝ) : ℝ :=
  let dx := p2.1 - p1.1
  if cqt then energy * (deltaT a / segLen p1 p2) * 2
  else energy * (deltaT a * Real.sqrt dx) / 2

/-- The vector `intensityLinear` after the loop `for (i = 1; i < fftPoints.size(); ++i)`. -/
noncomputable def intensityLinear (cqt : Bool) (energy : ℝ) (a : AudioData)
    (pts : List (ℝ × ℝ)) : List ℝ :=
  (List.range' 1 (pts.length - 1)).map
    (fun i => segIntensity cqt energy a (pts.getD (i - 1) (0, 0)) (pts.getD i (0, 0)))

/-- The vector `dwellTimes` after the loop `for (i = 1; i < fftPoints.size(); ++i)`. -/
noncomputable def dwellTimes (a : AudioData) (pts : List (ℝ × ℝ)) : List ℝ :=
  (List.range' 1 (pts.length - 1)).map (fun _ => deltaT a)

/-! ## `draw` -/

/-- What a call of `draw` leaves behind: the updated visualizer and, when the phosphor
branch ran, the intensity and dwell-time vectors handed to `renderPhosphorSplines`. -/
structure DrawResult where
  state : Visualizer
  phosphor : Option (List ℝ × List ℝ)

/-- The phosphor context after the block "Initialize phosphor context if needed":
created when phosphor is enabled and there is none, destroyed when phosphor is disabled
and there is one. -/
def phosphorContextAfter (cfg : Config) (context : Bool) : Bool :=
  if cfg.fft.enable_phosphor && !context then true
  else if !cfg.fft.enable_phosphor && context then false
  else context

/-- The local `fftSize`: `(fftMagnitudesMid.size() - 1) * 2` when `useFFT`, else 0. -/
def fftSize (a : AudioData) : Nat :=
  if useFFT a then (a.fftMagnitudesMid.length - 1) * 2 else 0

/-- The local `freqScale = useCQT ? 1.0f : (sampleRate / fftSize)`. When `fftSize` is 0
(a one-bin FFT) the C++ value is infinite and the value here is 0; either way every
bin frequency then falls outside a range with `0 < min_freq` and no point is pushed. -/
noncomputable def freqScale (cfg : Config) (a : AudioData) : ℝ :=
  if useCQT cfg a then 1 else a.sampleRate / (fftSize a : ℝ)

/-- The points pushed to `fftPoints` by the main mapping loop; `s` is the visualizer
after `updateCaches`. -/
noncomputable def mainPoints (cfg : Config) (a : AudioData) (s : Visualizer) : List (ℝ × ℝ) :=
  mapBins cfg s a.windowHeight (useCQT cfg a) a.cqtFrequencies (freqScale cfg a)
    (mainMagnitudes cfg a (useCQT cfg a))

/-- The points pushed to `alternateFFTPoints` by the alternate mapping loop, which runs
only when `showAlternate = !enable_phosphor`. -/
noncomputable def alternatePoints (cfg : Config) (a : AudioData) (s : Visualizer) :
    List (ℝ × ℝ) :=
  if !cfg.fft.enable_phosphor then
    mapBins cfg s a.windowHeight (useCQT cfg a) a.cqtFrequencies (freqScale cfg a)
      (alternateMagnitudes cfg a (useCQT cfg a))
  else []

/-- The function `FFTVisualizer::draw`, without the calls that only draw. -/
noncomputable def draw (cfg : Config) (a : AudioData) (s : Visualizer) : DrawResult :=
  let s := updateCaches cfg s
  let context := phosphorContextAfter cfg s.phosphorContext
  if useCQT cfg a || useFFT a then
    let altPts := alternatePoints cfg a s
    let pts := mainPoints cfg a s
    let s' := { s with phosphorContext := context, fftPoints := pts,
                       alternateFFTPoints := altPts }
    if cfg.fft.enable_phosphor && context && !pts.isEmpty then
      let energy := beamEnergy cfg a s (useCQT cfg a)
      { state := s'
        phosphor := some (intensityLinear (useCQT cfg a) energy a pts, dwellTimes a pts) }
    else { state := s', phosphor := none }
  else { state := { s with phosphorContext := context }, phosphor := none }

/-! ## `calculateFrequencyAndDB` -/

/-- The frequency output: `logX = x / width; frequency = exp(logX * logFreqRange + logMinFreq)`. -/
noncomputable def recoveredFrequency (s : Visualizer) (x : ℝ) : ℝ :=
  Real.exp (x / (s.width : ℝ) * s.logFreqRange + s.logMinFreq)

/-- The local `displayed_dB = (y / windowHeight) * dbRange + min_db`. -/
noncomputable def displayed_dB (cfg : Config) (s : Visualizer) (y windowHeight : ℝ) : ℝ :=
  y / windowHeight * s.dbRange + cfg.fft.min_db

/-- The local `slope_correction_dB = 20.0f * slope_k * log10f(frequency * gainBase)`. -/
noncomputable def slope_correction_dB (cfg : Config) (frequency : ℝ) : ℝ :=
  20 * slope_k cfg * Real.logb 10 (frequency * gainBase)

/-- The function `FFTVisualizer::calculateFrequencyAndDB`: the pair `(frequency, actualDB)`. -/
noncomputable def calculateFrequencyAndDB (cfg : Config) (s : Visualizer)
    (x y windowHeight : ℝ) : ℝ × ℝ :=
  let frequency := recoveredFrequency s x
  (frequency, displayed_dB cfg s y windowHeight - slope_correction_dB cfg frequency)

/-! ## `freqToNote` -/

/-- The C function `roundf` followed by the cast to `int`: the nearest integer, halfway
cases away from zero. -/
noncomputable def roundf (x : ℝ) : Int :=
  if 0 ≤ x then ⌊x + 1 / 2⌋ else ⌈x - 1 / 2⌉

/-- The outputs of `freqToNote`. -/
structure Note where
  noteName : String
  octave : Int
  cents : Int
  deriving DecidableEq, Repr

/-- The local `midi = 69.0f + 12.0f * log2f(freq / 440.0f)`. -/
noncomputable def midiOf (freq : ℝ) : ℝ := 69 + 12 * Real.logb 2 (freq / 440)

/-- The function `FFTVisualizer::freqToNote`; `/` and `%` on `int` truncate toward zero. -/
noncomputable def freqToNote (s : Visualizer) (freq : ℝ) : Note :=
  match s.noteNames with
  | none => { noteName := "-", octave := 0, cents := 0 }
  | some table =>
    if freq ≤ 0 then { noteName := "-", octave := 0, cents := 0 }
    else
      let midi := midiOf freq
      if midi < 0 ∨ midi > 127 then { noteName := "-", octave := 0, cents := 0 }
      else
        let midiInt := roundf midi
        let noteIdx := Int.tmod (midiInt + 1200) 12
        { noteName := table.names.getD noteIdx.toNat ""
          octave := Int.tdiv midiInt 12 - 1
          cents := roundf ((midi - (midiInt : ℝ)) * 100) }

/-! ## Special values of `float`

The definitions above treat every `float` as a real number. The two parts of the code
whose behaviour on the special values matters, the argument of `freqToNote` and the
beam model, are embedded a second time below over `F32`, which adds the infinities and
NaN. Finite results are still exact real numbers: an operation whose exact result
exceeds `FLT_MAX` in magnitude overflows to the infinity of its sign, anything else is
kept as it is (rounding and underflow are not modelled, and a zero is taken as `+0`). -/

/-- A `float`: a finite value, an infinity, or NaN. -/
inductive F32 where
  | fin (x : ℝ)
  | pinf
  | ninf
  | nan

namespace F32

/-- The function `sqrtf`. -/
noncomputable def sqrt : F32 → F32
  | fin x => if x < 0 then nan else fin (Real.sqrt x)
  | pinf => pinf
  | ninf => nan
  | nan => nan

/-- The comparison `a < b`, false whenever an operand is NaN. -/
noncomputable def lt : F32 → F32 → Bool
  | fin a, fin b => decide (a < b)
  | nan, _ => false
  | _, nan => false
  | ninf, ninf => false
  | pinf, _ => false
  | ninf, _ => true
  | fin _, pinf => true
  | fin _, ninf => false

/-- The function `std::max(a, b)`, which is `(a < b) ? b : a`. -/
noncomputable def max (a b : F32) : F32 := if lt a b then b else a

end F32

/-! ### `freqToNote` on any `float` argument -/

/-- The function `FFTVisualizer::freqToNote` on an argument that may be an infinity or
NaN; `none` stands for undefined behaviour.

* A finite argument takes the path of `freqToNote`.
* `-inf` satisfies `freq <= 0.0f`: the sentinel.
* `+inf` fails `freq <= 0.0f`; with the table unset it gets the sentinel, otherwise
  `midi = +inf` satisfies `midi > 127.0f`: the sentinel.
* NaN fails `freq <= 0.0f`; with the table unset it gets the sentinel. Otherwise `midi`
  is NaN, both comparisons of the range check are false, and `(int)roundf(midi)` is
  undefined, so the index into the 12-entry table is not a checked one. -/
noncomputable def freqToNoteFloat (s : Visualizer) : F32 → Option Note
  | .fin x => some (freqToNote s x)
  | .ninf => some { noteName := "-", octave := 0, cents := 0 }
  | .pinf => some { noteName := "-", octave := 0, cents := 0 }
  | .nan =>
    match s.noteNames with
    | none => some { noteName := "-", octave := 0, cents := 0 }
    | some _ => none

/-! ### The beam model with overflow -/

/-- The cached logarithms are current for `cfg`: when the visualizer has already seen
the version of `cfg` (so that `updateCaches` will not recompute), `logMinFreq` and
`logFreqRange` hold the values `updateCaches` computes from `cfg`. A visualizer that has
not yet seen the version satisfies this trivially. -/
def CachesCurrent (cfg : Config) (s : Visualizer) : Prop :=
  cfg.version = s.lastConfigVersion →
    s.logMinFreq = Real.log cfg.fft.min_freq ∧
    s.logFreqRange = Real.log cfg.fft.max_freq - Real.log cfg.fft.min_freq

/-! ## Concrete inputs used to instantiate the theorems -/

/-- The scenario configuration: 20 Hz to 20 kHz, -100 dB to 0 dB, mid/side display,
sharp spelling, CQT and phosphor off; configuration version 1. -/
def scenarioConfig : Config :=
  { version := 1
    fft := { min_freq := 20, max_freq := 20000, min_db := -100, max_db := 0,
             slope_correction_db := 4.5, beam_multiplier := 1,
             stereo_mode := "midside", note_key_mode := "sharp",
             enable_cqt := false, enable_phosphor := false }
    beam_energy := 100 }

/-- An audio frame with no magnitudes at all. -/
def silentFrame : AudioData :=
  { sampleRate := 48000, windowHeight := 300, audioDeltaTime := 0.016,
    fftMagnitudesMid := [], fftMagnitudesSide := [],
    cqtMagnitudesMid := [], cqtMagnitudesSide := [],
    smoothedMagnitudesMid := [], smoothedMagnitudesSide := [],
    smoothedCqtMagnitudesMid := [], smoothedCqtMagnitudesSide := [],
    cqtFrequencies := [] }

/-- The scenario configuration with left/right reconstruction selected. -/
def leftRightConfig : Config :=
  { scenarioConfig with fft := { scenarioConfig.fft with stereo_mode := "leftright" } }

/-- An audio frame with two FFT bins per channel. -/
def stereoFrame : AudioData :=
  { silentFrame with
    fftMagnitudesMid := [3, 5], fftMagnitudesSide := [1, 2],
    smoothedMagnitudesMid := [3, 5], smoothedMagnitudesSide := [1, 2] }

/-- The scenario configuration with the displayed range starting at 880 Hz. -/
def pivotConfig : Config :=
  { scenarioConfig with fft := { scenarioConfig.fft with min_freq := 880 } }

/-- The scenario configuration with phosphor rendering enabled, FFT source. -/
def phosphorFFTConfig : Config :=
  { scenarioConfig with fft := { scenarioConfig.fft with enable_phosphor := true } }

/-- An FFT frame of three bins at a 4 kHz sample rate: bins 1 and 2 are at 1000 Hz and
2000 Hz. -/
def twoBinFrame : AudioData :=
  { silentFrame with
    sampleRate := 4000
    fftMagnitudesMid := [0, 1, 1], fftMagnitudesSide := [0, 0, 0],
    smoothedMagnitudesMid := [0, 1, 1], smoothedMagnitudesSide := [0, 0, 0] }

/-- The visualizer left by drawing the two-bin FFT frame from the initial state. -/
noncomputable def afterTwoBinFrame : Visualizer :=
  (draw scenarioConfig twoBinFrame (Visualizer.initial 800)).state

/-! ## Cache refresh -/

theorem updateCaches_of_eq (cfg : Config) (s : Visualizer)
    (h : cfg.version = s.lastConfigVersion) : updateCaches cfg s = s := by
  simp [updateCaches, h]

theorem updateCaches_lastConfigVersion (cfg : Config) (s : Visualizer) :
    (updateCaches cfg s).lastConfigVersion = cfg.version := by
  by_cases h : cfg.version = s.lastConfigVersion
  · rw [updateCaches_of_eq cfg s h, h]
  · simp [updateCaches, h]

/-- C6. `updateCaches` changes nothing when the configuration version equals
`lastConfigVersion`; hence a second call with the version unchanged (even if other
fields of the configuration differ) returns the visualizer of the first call unchanged:
the four cached values, the note table reference and `lastConfigVersion` all keep the
values they had after the first call. -/
theorem updateCaches_stable (cfg cfg' : Config) (s : Visualizer)
    (hv : cfg'.version = cfg.version) :
    (cfg.version = s.lastConfigVersion → updateCaches cfg s = s) ∧
    updateCaches cfg' (updateCaches cfg s) = updateCaches cfg s := by
  refine ⟨updateCaches_of_eq cfg s, ?_⟩
  apply updateCaches_of_eq
  rw [updateCaches_lastConfigVersion, hv]

/-- C6 at the scenario configuration, from the initial state. -/
theorem updateCaches_stable_witness :
    (scenarioConfig.version = (Visualizer.initial 800).lastConfigVersion →
      updateCaches scenarioConfig (Visualizer.initial 800) = Visualizer.initial 800) ∧
    updateCaches scenarioConfig (updateCaches scenarioConfig (Visualizer.initial 800))
      = updateCaches scenarioConfig (Visualizer.initial 800) :=
  updateCaches_stable scenarioConfig scenarioConfig (Visualizer.initial 800) rfl

/-! ## Stereo reconstruction -/

theorem leftMagnitudes_getD (mid side : List ℝ) (i : Nat) (hi : i < mid.length) :
    (leftMagnitudes mid side).getD i 0 = mid.getD i 0 - side.getD i 0 := by
  have hlen : i < (leftMagnitudes mid side).length := by simpa [leftMagnitudes] using hi
  rw [List.getD_eq_getElem _ _ hlen]
  simp [leftMagnitudes]

theorem rightMagnitudes_getD (mid side : List ℝ) (i : Nat) (hi : i < mid.length) :
    (rightMagnitudes mid side).getD i 0 = mid.getD i 0 + side.getD i 0 := by
  have hlen : i < (rightMagnitudes mid side).length := by simpa [rightMagnitudes] using hi
  rw [List.getD_eq_getElem _ _ hlen]
  simp [rightMagnitudes]

/-- C4. With `stereo_mode = "leftright"` and phosphor disabled, for the CQT and the FFT
source alike (`cqt` is either), the main and alternate magnitude vectors have the length
of the mid vector and at every bin `i` below that length (mid and side of equal length)
`main[i] = mid[i] - side[i]`, `alternate[i] = mid[i] + side[i]`, so
`main[i] + alternate[i] = 2 * mid[i]` and `alternate[i] - main[i] = 2 * side[i]`;
in every other mode main is the mid vector and alternate the side vector. -/
theorem stereo_reconstruction (cfg : Config) (a : AudioData) (cqt : Bool) :
    (cfg.fft.stereo_mode = "leftright" → cfg.fft.enable_phosphor = false →
      (sourceMid a cqt).length = (sourceSide a cqt).length →
      (mainMagnitudes cfg a cqt).length = (sourceMid a cqt).length ∧
      (alternateMagnitudes cfg a cqt).length = (sourceMid a cqt).length ∧
      ∀ i, i < (sourceMid a cqt).length →
        (mainMagnitudes cfg a cqt).getD i 0
          = (sourceMid a cqt).getD i 0 - (sourceSide a cqt).getD i 0 ∧
        (alternateMagnitudes cfg a cqt).getD i 0
          = (sourceMid a cqt).getD i 0 + (sourceSide a cqt).getD i 0 ∧
        (mainMagnitudes cfg a cqt).getD i 0 + (alternateMagnitudes cfg a cqt).getD i 0
          = 2 * (sourceMid a cqt).getD i 0 ∧
        (alternateMagnitudes cfg a cqt).getD i 0 - (mainMagnitudes cfg a cqt).getD i 0
          = 2 * (sourceSide a cqt).getD i 0) ∧
    (¬ (cfg.fft.stereo_mode = "leftright" ∧ cfg.fft.enable_phosphor = false) →
      mainMagnitudes cfg a cqt = sourceMid a cqt ∧
      alternateMagnitudes cfg a cqt = sourceSide a cqt) := by
  constructor
  · intro hmode hph _
    have hlr : isLeftRightMode cfg = true := by simp [isLeftRightMode, hmode, hph]
    refine ⟨by simp [mainMagnitudes, hlr, leftMagnitudes],
      by simp [alternateMagnitudes, hlr, rightMagnitudes], ?_⟩
    intro i hi
    have hm : (mainMagnitudes cfg a cqt).getD i 0
        = (sourceMid a cqt).getD i 0 - (sourceSide a cqt).getD i 0 := by
      simp only [mainMagnitudes, hlr, if_true]
      exact leftMagnitudes_getD _ _ i hi
    have ha : (alternateMagnitudes cfg a cqt).getD i 0
        = (sourceMid a cqt).getD i 0 + (sourceSide a cqt).getD i 0 := by
      simp only [alternateMagnitudes, hlr, if_true]
      exact rightMagnitudes_getD _ _ i hi
    refine ⟨hm, ha, ?_, ?_⟩
    · rw [hm, ha]; ring
    · rw [hm, ha]; ring
  · intro hnot
    have hlr : isLeftRightMode cfg = false := by
      simp only [isLeftRightMode, Bool.and_eq_false_imp, decide_eq_true_eq,
        Bool.not_eq_false_eq_eq_true]
      intro hmode
      by_contra hph
      exact hnot ⟨hmode, by simpa using hph⟩
    simp [mainMagnitudes, alternateMagnitudes, hlr]

/-- C4 at bin 1 of a two-bin FFT frame in left/right mode. -/
theorem stereo_reconstruction_witness :
    (mainMagnitudes leftRightConfig stereoFrame false).getD 1 0
        + (alternateMagnitudes leftRightConfig stereoFrame false).getD 1 0
      = 2 * (sourceMid stereoFrame false).getD 1 0 ∧
    (alternateMagnitudes leftRightConfig stereoFrame false).getD 1 0
        - (mainMagnitudes leftRightConfig stereoFrame false).getD 1 0
      = 2 * (sourceSide stereoFrame false).getD 1 0 :=
  have h := ((stereo_reconstruction leftRightConfig stereoFrame false).1 rfl rfl rfl).2.2 1
    (by decide)
  ⟨h.2.2.1, h.2.2.2⟩

/-! ## Frames without a usable source -/

theorem draw_no_source (cfg : Config) (a : AudioData) (s : Visualizer)
    (hcqt : useCQT cfg a = false) (hfft : useFFT a = false) :
    (draw cfg a s).state.fftPoints = (updateCaches cfg s).fftPoints ∧
    (draw cfg a s).state.alternateFFTPoints = (updateCaches cfg s).alternateFFTPoints ∧
    (draw cfg a s).phosphor = none := by
  simp [draw, hcqt, hfft]

theorem updateCaches_points (cfg : Config) (s : Visualizer) :
    (updateCaches cfg s).fftPoints = s.fftPoints ∧
    (updateCaches cfg s).alternateFFTPoints = s.alternateFFTPoints := by
  unfold updateCaches
  split_ifs <;> exact ⟨rfl, rfl⟩

/-- C5, as the code behaves. In a frame in which neither source is usable (the FFT mid
or side magnitudes are empty, and the CQT mid or side magnitudes are empty or CQT is
disabled) `draw` skips the whole mapping block: it leaves the main and the alternate
point sequences exactly as they were before the call and hands nothing to the phosphor
renderer. In particular both sequences are empty after `draw` when they were empty
before it. -/
theorem draw_no_source_keeps_points (cfg : Config) (a : AudioData) (s : Visualizer)
    (hfft : a.fftMagnitudesMid = [] ∨ a.fftMagnitudesSide = [])
    (hcqt : a.cqtMagnitudesMid = [] ∨ a.cqtMagnitudesSide = [] ∨ cfg.fft.enable_cqt = false) :
    (draw cfg a s).state.fftPoints = s.fftPoints ∧
    (draw cfg a s).state.alternateFFTPoints = s.alternateFFTPoints ∧
    (draw cfg a s).phosphor = none ∧
    (s.fftPoints = [] → s.alternateFFTPoints = [] →
      (draw cfg a s).state.fftPoints = [] ∧ (draw cfg a s).state.alternateFFTPoints = []) := by
  have h1 : useFFT a = false := by
    rcases hfft with h | h <;> simp [useFFT, h]
  have h2 : useCQT cfg a = false := by
    rcases hcqt with h | h | h <;> simp [useCQT, h]
  obtain ⟨hp, ha, hn⟩ := draw_no_source cfg a s h2 h1
  obtain ⟨up, ua⟩ := updateCaches_points cfg s
  rw [up] at hp
  rw [ua] at ha
  refine ⟨hp, ha, hn, ?_⟩
  intro e1 e2
  exact ⟨hp.trans e1, ha.trans e2⟩

/-! ## The mapping loop -/

theorem mapBin_keep (cfg : Config) (s : Visualizer) (windowHeight : ℝ) (cqt : Bool)
    (frequencies : List ℝ) (scale : ℝ) (magnitudes : List ℝ) (bin : Nat) (f : ℝ)
    (hf : binFreq cqt frequencies scale bin = f)
    (hlo : cfg.fft.min_freq ≤ f) (hhi : f ≤ cfg.fft.max_freq) :
    mapBin cfg s windowHeight cqt frequencies scale magnitudes bin
      = some (forwardX s f, forwardY cfg s windowHeight f (magnitudes.getD bin 0)) := by
  have hkeep : ¬ (f < cfg.fft.min_freq ∨ f > cfg.fft.max_freq) := by
    rintro (h | h)
    · exact absurd hlo (not_le.mpr h)
    · exact absurd hhi (not_le.mpr h)
  simp only [mapBin, hf, hkeep, if_false]

/-! ## The logarithmic frequency axis -/

theorem updateCaches_width (cfg : Config) (s : Visualizer) :
    (updateCaches cfg s).width = s.width := by
  unfold updateCaches
  split_ifs <;> rfl

theorem updateCaches_current (cfg : Config) (s : Visualizer) (hc : CachesCurrent cfg s) :
    (updateCaches cfg s).logMinFreq = Real.log cfg.fft.min_freq ∧
    (updateCaches cfg s).logFreqRange
      = Real.log cfg.fft.max_freq - Real.log cfg.fft.min_freq := by
  by_cases h : cfg.version = s.lastConfigVersion
  · rw [updateCaches_of_eq cfg s h]
    exact hc h
  · simp [updateCaches, h]

theorem initial_current (cfg : Config) (w : Int) (h : cfg.version ≠ 0) :
    CachesCurrent cfg (Visualizer.initial w) :=
  fun e => absurd e h

theorem logFreqRange_pos (cfg : Config) (hmin : 0 < cfg.fft.min_freq)
    (hlt : cfg.fft.min_freq < cfg.fft.max_freq) :
    0 < Real.log cfg.fft.max_freq - Real.log cfg.fft.min_freq :=
  sub_pos.mpr (Real.log_lt_log hmin hlt)

/-- The inverse mapping undoes the forward mapping on any visualizer whose panel width
and cached log range are non-zero. -/
theorem recoveredFrequency_forwardX (s : Visualizer) (f : ℝ) (hf : 0 < f)
    (hw : (s.width : ℝ) ≠ 0) (hr : s.logFreqRange ≠ 0) :
    recoveredFrequency s (forwardX s f) = f := by
  unfold recoveredFrequency forwardX
  have e : (Real.log f - s.logMinFreq) * (1 / s.logFreqRange) * (s.width : ℝ) / (s.width : ℝ)
      * s.logFreqRange + s.logMinFreq = Real.log f := by
    field_simp
    ring
  rw [e, Real.exp_log hf]

/-- C1. For a configuration with `0 < min_freq < max_freq`, a panel of width `> 0` and
a frequency `f` with `min_freq ≤ f ≤ max_freq`, on the visualizer left by `updateCaches`
(its caches current for the configuration) the forward mapping of `draw` gives
`x = ((ln f - logMinFreq) / logFreqRange) * width`, `calculateFrequencyAndDB` applied to
that `x` returns the frequency `f` exactly (over the reals), and a bin of frequency `f`
is kept by the mapping loop with that `x`. -/
theorem log_axis_roundtrip (cfg : Config) (s : Visualizer) (f y windowHeight : ℝ)
    (hmin : 0 < cfg.fft.min_freq) (hlt : cfg.fft.min_freq < cfg.fft.max_freq)
    (hw : 0 < s.width) (hlo : cfg.fft.min_freq ≤ f) (hhi : f ≤ cfg.fft.max_freq)
    (hc : CachesCurrent cfg s) :
    forwardX (updateCaches cfg s) f
      = (Real.log f - (updateCaches cfg s).logMinFreq) / (updateCaches cfg s).logFreqRange
          * ((updateCaches cfg s).width : ℝ) ∧
    (calculateFrequencyAndDB cfg (updateCaches cfg s)
      (forwardX (updateCaches cfg s) f) y windowHeight).1 = f ∧
    ∀ (cqt : Bool) (frequencies magnitudes : List ℝ) (scale : ℝ) (bin : Nat),
      binFreq cqt frequencies scale bin = f →
      ∃ p, mapBin cfg (updateCaches cfg s) windowHeight cqt frequencies scale magnitudes bin
          = some p ∧
        p.1 = forwardX (updateCaches cfg s) f := by
  refine ⟨?_, ?_, ?_⟩
  · unfold forwardX
    ring
  rotate_left
  · intro cqt frequencies magnitudes scale bin hb
    exact ⟨_, mapBin_keep cfg _ windowHeight cqt frequencies scale magnitudes bin f hb hlo hhi,
      rfl⟩
  · have hr : (updateCaches cfg s).logFreqRange ≠ 0 := by
      rw [(updateCaches_current cfg s hc).2]
      exact (logFreqRange_pos cfg hmin hlt).ne'
    have hw' : (((updateCaches cfg s).width : Int) : ℝ) ≠ 0 := by
      rw [updateCaches_width]
      exact_mod_cast hw.ne'
    exact recoveredFrequency_forwardX _ f (lt_of_lt_of_le hmin hlo) hw' hr

/-- C1 at 2000 Hz on the scenario configuration with an 800 pixel panel. -/
theorem log_axis_roundtrip_witness :
    (calculateFrequencyAndDB scenarioConfig
      (updateCaches scenarioConfig (Visualizer.initial 800))
      (forwardX (updateCaches scenarioConfig (Visualizer.initial 800)) 2000) 0 300).1 = 2000 :=
  (log_axis_roundtrip scenarioConfig (Visualizer.initial 800) 2000 0 300
    (by norm_num [scenarioConfig]) (by norm_num [scenarioConfig])
    (by decide) (by norm_num [scenarioConfig]) (by norm_num [scenarioConfig])
    (initial_current scenarioConfig 800 (by decide))).2.1

/-! ## The slope-correction pivot -/

theorem pivot_arg : (880 : ℝ) * gainBase = 1 := by
  norm_num [gainBase]

/-- C7. For every `slope_correction_db`, the forward gain `powf(freq * gainBase, slope_k)`
at `freq = 880` is 1, so the adjusted magnitude is the magnitude and the vertical
position is that of the uncorrected magnitude; and for every `(x, y)`
whose recovered frequency is 880 the term `slope_correction_dB` of
`calculateFrequencyAndDB` is 0, so `actualDB` equals `displayed_dB`. -/
theorem slope_pivot (cfg : Config) (s : Visualizer) (magnitude x y windowHeight : ℝ) :
    slopeGain cfg 880 = 1 ∧
    magnitude * slopeGain cfg 880 = magnitude ∧
    forwardY cfg s windowHeight 880 magnitude
      = (20 * Real.logb 10 (magnitude + 1e-9) - cfg.fft.min_db) * (1 / s.dbRange)
          * windowHeight ∧
    (recoveredFrequency s x = 880 →
      (calculateFrequencyAndDB cfg s x y windowHeight).1 = 880 ∧
      slope_correction_dB cfg (calculateFrequencyAndDB cfg s x y windowHeight).1 = 0 ∧
      (calculateFrequencyAndDB cfg s x y windowHeight).2 = displayed_dB cfg s y windowHeight) := by
  have hg : slopeGain cfg 880 = 1 := by
    unfold slopeGain
    rw [pivot_arg]
    exact Real.one_rpow _
  refine ⟨hg, by rw [hg, mul_one], by simp only [forwardY, hg, mul_one], ?_⟩
  intro hf
  have hz : slope_correction_dB cfg 880 = 0 := by
    unfold slope_correction_dB
    rw [pivot_arg, Real.logb_one, mul_zero]
  refine ⟨hf, ?_, ?_⟩
  · show slope_correction_dB cfg (recoveredFrequency s x) = 0
    rw [hf, hz]
  · show displayed_dB cfg s y windowHeight - slope_correction_dB cfg (recoveredFrequency s x)
      = displayed_dB cfg s y windowHeight
    rw [hf, hz, sub_zero]

/-- C7 at the left edge of a panel whose displayed range starts at 880 Hz. -/
theorem slope_pivot_witness :
    recoveredFrequency (updateCaches pivotConfig (Visualizer.initial 800)) 0 = 880 ∧
    (calculateFrequencyAndDB pivotConfig (updateCaches pivotConfig (Visualizer.initial 800))
      0 150 300).2
      = displayed_dB pivotConfig (updateCaches pivotConfig (Visualizer.initial 800)) 150 300 := by
  have hf : recoveredFrequency (updateCaches pivotConfig (Visualizer.initial 800)) 0 = 880 := by
    unfold recoveredFrequency
    rw [(updateCaches_current pivotConfig _ (initial_current pivotConfig 800 (by decide))).1]
    simp only [zero_div, zero_mul, zero_add]
    exact Real.exp_log (by norm_num [pivotConfig, scenarioConfig])
  exact ⟨hf, ((slope_pivot pivotConfig _ 1 0 150 300).2.2.2 hf).2.2⟩

/-! ## The scenario value -/

theorem log_2000_sub_log_20 : Real.log 2000 - Real.log 20 = 2 * Real.log 10 := by
  rw [← Real.log_div (by norm_num) (by norm_num)]
  have e : (2000 : ℝ) / 20 = 10 ^ 2 := by norm_num
  rw [e, Real.log_pow]
  norm_num

theorem log_20000_sub_log_20 : Real.log 20000 - Real.log 20 = 3 * Real.log 10 := by
  rw [← Real.log_div (by norm_num) (by norm_num)]
  have e : (20000 : ℝ) / 20 = 10 ^ 3 := by norm_num
  rw [e, Real.log_pow]
  norm_num

/-- On a visualizer of width 800 whose caches are those of a 20 Hz to 20 kHz range, the
forward mapping sends 2000 Hz to two thirds of the width. -/
theorem forwardX_2000 (s : Visualizer) (hw : s.width = 800)
    (hmin : s.logMinFreq = Real.log 20)
    (hr : s.logFreqRange = Real.log 20000 - Real.log 20) :
    forwardX s 2000 = 1600 / 3 := by
  have hpos : 0 < Real.log 10 := Real.log_pos (by norm_num)
  unfold forwardX
  rw [hmin, hr, hw, log_2000_sub_log_20, log_20000_sub_log_20]
  push_cast
  field_simp
  ring

/-- C9, with the value the formula really has. With `min_freq = 20`, `max_freq = 20000`
and panel width 800, the forward mapping places a bin at 2000 Hz at
`x = ((ln 2000 - ln 20) / (ln 20000 - ln 20)) * 800`; that value is `1600 / 3`, which is
533.3 to one decimal place (`|x - 533.3| < 0.05`), and a bin whose frequency is 2000 Hz
is kept by the mapping loop with that horizontal position. -/
theorem scenario_bin_position (cfg : Config) (s : Visualizer)
    (h20 : cfg.fft.min_freq = 20) (h20k : cfg.fft.max_freq = 20000)
    (hw : s.width = 800) (hc : CachesCurrent cfg s) :
    forwardX (updateCaches cfg s) 2000
      = (Real.log 2000 - Real.log 20) / (Real.log 20000 - Real.log 20) * 800 ∧
    forwardX (updateCaches cfg s) 2000 = 1600 / 3 ∧
    |forwardX (updateCaches cfg s) 2000 - 533.3| < 0.05 ∧
    ∀ (windowHeight : ℝ) (cqt : Bool) (frequencies magnitudes : List ℝ) (freqScale : ℝ)
      (bin : Nat), binFreq cqt frequencies freqScale bin = 2000 →
      (mapBin cfg (updateCaches cfg s) windowHeight cqt frequencies freqScale magnitudes bin).map
        Prod.fst = some (1600 / 3) := by
  obtain ⟨c1, c2⟩ := updateCaches_current cfg s hc
  rw [h20] at c1
  rw [h20, h20k] at c2
  have hx : forwardX (updateCaches cfg s) 2000 = 1600 / 3 :=
    forwardX_2000 _ ((updateCaches_width cfg s).trans hw) c1 c2
  have hpos : 0 < Real.log 10 := Real.log_pos (by norm_num)
  refine ⟨?_, hx, ?_, ?_⟩
  · rw [hx, log_2000_sub_log_20, log_20000_sub_log_20]
    field_simp
    ring
  · rw [hx, abs_lt]
    constructor <;> norm_num
  · intro windowHeight cqt frequencies magnitudes freqScale bin hb
    have hkeep : ¬ ((2000 : ℝ) < cfg.fft.min_freq ∨ (2000 : ℝ) > cfg.fft.max_freq) := by
      rw [h20, h20k]
      norm_num
    simp only [mapBin, hb, hkeep, if_false, Option.map_some', hx]

/-- C9 (amended) on the scenario configuration from the initial state. -/
theorem scenario_bin_position_witness :
    forwardX (updateCaches scenarioConfig (Visualizer.initial 800)) 2000 = 1600 / 3 ∧
    |forwardX (updateCaches scenarioConfig (Visualizer.initial 800)) 2000 - 533.3| < 0.05 :=
  have h := scenario_bin_position scenarioConfig (Visualizer.initial 800) rfl rfl rfl
    (initial_current scenarioConfig 800 (by decide))
  ⟨h.2.1, h.2.2.1⟩

/-- C9 fails as stated: on the scenario configuration with an 800 pixel panel the
position of 2000 Hz is not within 0.05 of 533.9. -/
theorem scenario_bin_position_not_533_9 :
    scenarioConfig.fft.min_freq = 20 ∧ scenarioConfig.fft.max_freq = 20000 ∧
    (updateCaches scenarioConfig (Visualizer.initial 800)).width = 800 ∧
    ¬ |forwardX (updateCaches scenarioConfig (Visualizer.initial 800)) 2000 - 533.9| < 0.05 := by
  obtain ⟨c1, c2⟩ := updateCaches_current scenarioConfig (Visualizer.initial 800)
    (initial_current scenarioConfig 800 (by decide))
  have hw := updateCaches_width scenarioConfig (Visualizer.initial 800)
  refine ⟨rfl, rfl, hw, ?_⟩
  rw [forwardX_2000 _ hw c1 c2, abs_lt]
  norm_num

/-! ## Note naming -/

theorem roundf_eq (x : ℝ) (z : Int) (h1 : (z : ℝ) - 1 / 2 < x) (h2 : x < (z : ℝ) + 1 / 2) :
    roundf x = z := by
  unfold roundf
  split_ifs with h
  · rw [Int.floor_eq_iff]
    constructor <;> linarith
  · rw [Int.ceil_eq_iff]
    constructor <;> linarith

theorem roundf_bounds (x : ℝ) (h0 : 0 ≤ x) (h127 : x ≤ 127) :
    0 ≤ roundf x ∧ roundf x ≤ 127 := by
  unfold roundf
  rw [if_pos h0]
  constructor
  · rw [Int.floor_nonneg]
    linarith
  · have : ⌊x + 1 / 2⌋ < 128 := by
      rw [Int.floor_lt]
      push_cast
      linarith
    omega

theorem names_length (table : NoteTable) : table.names.length = 12 := by
  cases table <;> rfl

/-- The result of `freqToNote` on the path that reaches the table lookup. -/
theorem freqToNote_accept (s : Visualizer) (table : NoteTable) (f : ℝ)
    (hn : s.noteNames = some table) (hf : 0 < f) (h0 : 0 ≤ midiOf f) (h127 : midiOf f ≤ 127) :
    freqToNote s f =
      { noteName := table.names.getD (Int.tmod (roundf (midiOf f) + 1200) 12).toNat ""
        octave := Int.tdiv (roundf (midiOf f)) 12 - 1
        cents := roundf ((midiOf f - (roundf (midiOf f) : ℝ)) * 100) } := by
  have h1 : ¬ f ≤ 0 := not_le.mpr hf
  have h2 : ¬ (midiOf f < 0 ∨ midiOf f > 127) := by
    rintro (h | h)
    · exact absurd h0 (not_le.mpr h)
    · exact absurd h127 (not_le.mpr h)
  simp only [freqToNote, hn, h1, h2, if_false]

theorem freqToNote_reject (s : Visualizer) (f : ℝ)
    (h : f ≤ 0 ∨ s.noteNames = none ∨ midiOf f < 0 ∨ midiOf f > 127) :
    freqToNote s f = { noteName := "-", octave := 0, cents := 0 } := by
  unfold freqToNote
  cases hn : s.noteNames with
  | none => rfl
  | some table =>
    simp only
    by_cases hf : f ≤ 0
    · rw [if_pos hf]
    · rw [if_neg hf]
      rcases h with h | h | h
      · exact absurd h hf
      · rw [hn] at h
        exact absurd h (by simp)
      · rw [if_pos h]

/-- C2, with the sentinel the code returns and without the NaN argument. For every
`float` argument other than NaN, `freqToNote` does not fail: `-inf` and `+inf` get the
sentinel, and a finite `f` takes the path of `freqToNote` over the reals, where every
`f` that is rejected (`f ≤ 0`, or the note table unset, or
`midi = 69 + 12 * log2(f / 440)` below 0 or above 127) gets the sentinel with note name
`"-"` (a dash, not the empty string), octave 0 and cents 0, and every other `f` gets a
name that is an entry of the 12-entry note table in use. With the table unset NaN gets
the sentinel too. -/
theorem freqToNote_sentinel (s : Visualizer) (f : ℝ) :
    freqToNoteFloat s .ninf = some { noteName := "-", octave := 0, cents := 0 } ∧
    freqToNoteFloat s .pinf = some { noteName := "-", octave := 0, cents := 0 } ∧
    (s.noteNames = none →
      freqToNoteFloat s .nan = some { noteName := "-", octave := 0, cents := 0 }) ∧
    freqToNoteFloat s (.fin f) = some (freqToNote s f) ∧
    ((f ≤ 0 ∨ s.noteNames = none ∨ midiOf f < 0 ∨ midiOf f > 127) →
      freqToNote s f = { noteName := "-", octave := 0, cents := 0 }) ∧
    (¬ (f ≤ 0 ∨ s.noteNames = none ∨ midiOf f < 0 ∨ midiOf f > 127) →
      ∃ table, s.noteNames = some table ∧ table.names.length = 12 ∧
        (freqToNote s f).noteName ∈ table.names) := by
  refine ⟨rfl, rfl, ?_, rfl, freqToNote_reject s f, ?_⟩
  · intro hn
    simp only [freqToNoteFloat, hn]
  intro h
  simp only [not_or, not_le, not_lt, gt_iff_lt] at h
  obtain ⟨hf, hn, h0, h127⟩ := h
  obtain ⟨table, ht⟩ := Option.ne_none_iff_exists'.mp hn
  refine ⟨table, ht, names_length table, ?_⟩
  rw [freqToNote_accept s table f ht hf h0 h127]
  obtain ⟨r0, r127⟩ := roundf_bounds (midiOf f) h0 h127
  have hidx : (Int.tmod (roundf (midiOf f) + 1200) 12).toNat < table.names.length := by
    rw [names_length]
    have a := Int.tmod_lt_of_pos (roundf (midiOf f) + 1200) (show (0 : Int) < 12 by decide)
    have b := Int.tmod_nonneg (12 : Int)
      (show (0 : Int) ≤ roundf (midiOf f) + 1200 by omega)
    omega
  show table.names.getD _ "" ∈ table.names
  rw [List.getD_eq_getElem _ _ hidx]
  exact List.getElem_mem hidx

/-- C2 (amended) on a refreshed visualizer: the frequency 0 is rejected with the dash
sentinel. -/
theorem freqToNote_sentinel_witness :
    freqToNoteFloat (updateCaches scenarioConfig (Visualizer.initial 800)) (.fin 0)
      = some { noteName := "-", octave := 0, cents := 0 } := by
  have h := freqToNote_sentinel (updateCaches scenarioConfig (Visualizer.initial 800)) 0
  rw [h.2.2.2.1, h.2.2.2.2.1 (Or.inl (le_refl 0))]

/-- C2 fails as stated, on a visualizer whose note table is set: the frequency 0 is
rejected with a note name that is not the empty string, and for the argument NaN, which
passes both guards, the call has no defined result. -/
theorem freqToNote_sentinel_not_empty :
    (updateCaches scenarioConfig (Visualizer.initial 800)).noteNames = some NoteTable.sharp ∧
    (0 : ℝ) ≤ 0 ∧
    freqToNoteFloat (updateCaches scenarioConfig (Visualizer.initial 800)) (.fin 0)
      = some { noteName := "-", octave := 0, cents := 0 } ∧
    ("-" : String) ≠ "" ∧
    freqToNoteFloat (updateCaches scenarioConfig (Visualizer.initial 800)) .nan = none := by
  have hn : (updateCaches scenarioConfig (Visualizer.initial 800)).noteNames
      = some NoteTable.sharp := by
    simp [updateCaches, scenarioConfig, Visualizer.initial]
  refine ⟨hn, le_refl 0, ?_, by decide, ?_⟩
  · show some (freqToNote _ 0) = _
    rw [freqToNote_reject _ 0 (Or.inl (le_refl 0))]
  · simp only [freqToNoteFloat, hn]

theorem midiOf_440 : midiOf 440 = 69 := by
  unfold midiOf
  rw [div_self (by norm_num), Real.logb_one]
  norm_num

/-- The MIDI number of 466.16 Hz lies just below 70. -/
theorem midiOf_466_16 : 70 - 1 / 250 < midiOf 466.16 ∧ midiOf 466.16 < 70 := by
  have hL : 0 < Real.log 2 := Real.log_pos (by norm_num)
  have hr : (0 : ℝ) < 466.16 / 440 := by norm_num
  have e : midiOf 466.16 = 69 + 12 * (Real.log (466.16 / 440) / Real.log 2) := by
    unfold midiOf
    rw [Real.log_div_log]
  -- upper bound: (466.16 / 440) ^ 12 < 2
  have hup : 12 * Real.log (466.16 / 440) < Real.log 2 := by
    have h := Real.log_lt_log (pow_pos hr 12)
      (show ((466.16 : ℝ) / 440) ^ 12 < 2 by norm_num)
    rw [Real.log_pow] at h
    exact_mod_cast h
  -- lower bound: 1 / 2 < ((466.16 / 440) ^ 12 / 2) ^ 250
  have hlo : -Real.log 2 < 250 * (12 * Real.log (466.16 / 440) - Real.log 2) := by
    have h := Real.log_lt_log (by norm_num)
      (show (1 / 2 : ℝ) < (((466.16 : ℝ) / 440) ^ 12 / 2) ^ 250 by norm_num)
    rw [Real.log_pow, Real.log_div (pow_pos hr 12).ne' (by norm_num), Real.log_pow,
      one_div, Real.log_inv] at h
    exact_mod_cast h
  rw [e]
  constructor
  · have : 1 - 1 / 250 < 12 * (Real.log (466.16 / 440) / Real.log 2) := by
      rw [← mul_div_assoc, lt_div_iff₀ hL]
      linarith
    linarith
  · have : 12 * (Real.log (466.16 / 440) / Real.log 2) < 1 := by
      rw [← mul_div_assoc, div_lt_one hL]
      exact hup
    linarith

theorem freqToNote_440 (s : Visualizer) (table : NoteTable) (hn : s.noteNames = some table) :
    freqToNote s 440 = { noteName := "A", octave := 4, cents := 0 } := by
  have hr : roundf (69 : ℝ) = 69 := roundf_eq 69 69 (by norm_num) (by norm_num)
  have hc : roundf (0 : ℝ) = 0 := roundf_eq 0 0 (by norm_num) (by norm_num)
  rw [freqToNote_accept s table 440 hn (by norm_num) (by rw [midiOf_440]; norm_num)
    (by rw [midiOf_440]; norm_num), midiOf_440, hr]
  have hz : ((69 : ℝ) - ((69 : Int) : ℝ)) * 100 = 0 := by norm_num
  rw [hz, hc]
  cases table <;> rfl

theorem freqToNote_466_16 (s : Visualizer) (table : NoteTable)
    (hn : s.noteNames = some table) :
    freqToNote s 466.16 =
      { noteName := table.names.getD 10 "", octave := 4, cents := 0 } := by
  obtain ⟨lo, hi⟩ := midiOf_466_16
  have hr : roundf (midiOf 466.16) = 70 := by
    apply roundf_eq
    · push_cast; linarith
    · push_cast; linarith
  have hc : roundf ((midiOf 466.16 - ((70 : Int) : ℝ)) * 100) = 0 := by
    apply roundf_eq
    · push_cast; linarith
    · push_cast; linarith
  rw [freqToNote_accept s table 466.16 hn (by norm_num) (by linarith) (by linarith), hr, hc]
  rfl

/-- C3. After `updateCaches` has selected a table (the configuration version is new to
the visualizer), `freqToNote(440)` returns name "A", octave 4, cents 0 whatever the
spelling mode, and `freqToNote(466.16)` returns octave 4 and cents 0 with name "A#" when
`note_key_mode` is "sharp" and "Bb" otherwise. -/
theorem note_naming (cfg : Config) (s : Visualizer) (hv : cfg.version ≠ s.lastConfigVersion) :
    freqToNote (updateCaches cfg s) 440 = { noteName := "A", octave := 4, cents := 0 } ∧
    freqToNote (updateCaches cfg s) 466.16 =
      { noteName := if cfg.fft.note_key_mode = "sharp" then "A#" else "Bb"
        octave := 4, cents := 0 } := by
  have hn : (updateCaches cfg s).noteNames
      = some (if cfg.fft.note_key_mode = "sharp" then NoteTable.sharp else NoteTable.flat) := by
    simp [updateCaches, hv]
  refine ⟨freqToNote_440 _ _ hn, ?_⟩
  rw [freqToNote_466_16 _ _ hn]
  by_cases hm : cfg.fft.note_key_mode = "sharp"
  · simp only [hm, if_true]
    rfl
  · simp only [hm, if_false]
    rfl

/-- C3 on the scenario configuration (sharp spelling) from the initial state. -/
theorem note_naming_witness :
    freqToNote (updateCaches scenarioConfig (Visualizer.initial 800)) 440
      = { noteName := "A", octave := 4, cents := 0 } ∧
    freqToNote (updateCaches scenarioConfig (Visualizer.initial 800)) 466.16
      = { noteName := "A#", octave := 4, cents := 0 } :=
  note_naming scenarioConfig (Visualizer.initial 800) (by decide)

/-! ## The beam model -/

theorem intensityLinear_length (cqt : Bool) (energy : ℝ) (a : AudioData)
    (pts : List (ℝ × ℝ)) : (intensityLinear cqt energy a pts).length = pts.length - 1 := by
  simp [intensityLinear]

theorem dwellTimes_length (a : AudioData) (pts : List (ℝ × ℝ)) :
    (dwellTimes a pts).length = pts.length - 1 := by
  simp [dwellTimes]

/-- Entry `i` of `intensityLinear` is the intensity of the segment from point `i` to
point `i + 1`. -/
theorem intensityLinear_getD (cqt : Bool) (energy : ℝ) (a : AudioData) (pts : List (ℝ × ℝ))
    (i : Nat) (hi : i + 1 < pts.length) :
    (intensityLinear cqt energy a pts).getD i 0
      = segIntensity cqt energy a (pts.getD i (0, 0)) (pts.getD (i + 1) (0, 0)) := by
  have hlen : i < (intensityLinear cqt energy a pts).length := by
    rw [intensityLinear_length]; omega
  rw [List.getD_eq_getElem _ _ hlen]
  simp only [intensityLinear, List.getElem_map, List.getElem_range', one_mul]
  rw [show 1 + i - 1 = i by omega, show 1 + i = i + 1 by omega]

/-- Entry `i` of `dwellTimes` is `deltaT`. -/
theorem dwellTimes_getD (a : AudioData) (pts : List (ℝ × ℝ)) (i : Nat)
    (hi : i + 1 < pts.length) : (dwellTimes a pts).getD i 0 = deltaT a := by
  have hlen : i < (dwellTimes a pts).length := by
    rw [dwellTimes_length]; omega
  rw [List.getD_eq_getElem _ _ hlen]
  simp only [dwellTimes, List.getElem_map]

/-! ### What `draw` stores and hands over -/

theorem draw_fftPoints (cfg : Config) (a : AudioData) (s : Visualizer)
    (h : (useCQT cfg a || useFFT a) = true) :
    (draw cfg a s).state.fftPoints = mainPoints cfg a (updateCaches cfg s) := by
  unfold draw
  simp only [h, if_true]
  split_ifs <;> rfl

theorem phosphorContextAfter_enabled (cfg : Config) (context : Bool)
    (hp : cfg.fft.enable_phosphor = true) : phosphorContextAfter cfg context = true := by
  cases context <;> simp [phosphorContextAfter, hp]

theorem draw_phosphor (cfg : Config) (a : AudioData) (s : Visualizer)
    (h : (useCQT cfg a || useFFT a) = true) (hp : cfg.fft.enable_phosphor = true)
    (hne : mainPoints cfg a (updateCaches cfg s) ≠ []) :
    (draw cfg a s).phosphor
      = some (intensityLinear (useCQT cfg a)
                (beamEnergy cfg a (updateCaches cfg s) (useCQT cfg a)) a
                (mainPoints cfg a (updateCaches cfg s)),
              dwellTimes a (mainPoints cfg a (updateCaches cfg s))) := by
  have hemp : (mainPoints cfg a (updateCaches cfg s)).isEmpty = false := by
    cases hm : mainPoints cfg a (updateCaches cfg s) with
    | nil => exact absurd hm hne
    | cons _ _ => rfl
  unfold draw
  simp only [h, if_true, hp, phosphorContextAfter_enabled cfg _ hp, hemp, Bool.not_false,
    Bool.and_self]

theorem beamEnergy_width (cfg : Config) (a : AudioData) (s s' : Visualizer) (cqt : Bool)
    (h : s'.width = s.width) : beamEnergy cfg a s' cqt = beamEnergy cfg a s cqt := by
  simp only [beamEnergy, h]

/-! ## The beam model on a zero-length segment, with overflow -/

theorem mapBin_some (cfg : Config) (s : Visualizer) (windowHeight : ℝ) (cqt : Bool)
    (frequencies : List ℝ) (scale : ℝ) (magnitudes : List ℝ) (bin : Nat) (p : ℝ × ℝ)
    (h : mapBin cfg s windowHeight cqt frequencies scale magnitudes bin = some p) :
    cfg.fft.min_freq ≤ binFreq cqt frequencies scale bin ∧
    binFreq cqt frequencies scale bin ≤ cfg.fft.max_freq ∧
    p.1 = forwardX s (binFreq cqt frequencies scale bin) := by
  unfold mapBin at h
  simp only at h
  split_ifs at h with hc
  simp only [not_or, not_lt, gt_iff_lt] at hc
  refine ⟨hc.1, hc.2, ?_⟩
  rw [← Option.some.inj h]

theorem forwardX_mono (s : Visualizer) (f g : ℝ) (hf : 0 < f) (hfg : f ≤ g)
    (hr : 0 < s.logFreqRange) (hw : 0 ≤ s.width) : forwardX s f ≤ forwardX s g := by
  unfold forwardX
  have hl : Real.log f ≤ Real.log g := Real.log_le_log hf hfg
  have h1 : 0 ≤ 1 / s.logFreqRange := by positivity
  have h2 : (0 : ℝ) ≤ (s.width : ℝ) := by exact_mod_cast hw
  exact mul_le_mul_of_nonneg_right
    (mul_le_mul_of_nonneg_right (by linarith) h1) h2

/-- In the FFT method the main points are in order of non-decreasing `x`. -/
theorem mainPoints_sorted (cfg : Config) (a : AudioData) (s : Visualizer)
    (hcqt : useCQT cfg a = false) (hmin : 0 < cfg.fft.min_freq)
    (hr : 0 < s.logFreqRange) (hw : 0 ≤ s.width) :
    (mainPoints cfg a s).Pairwise (fun p q => p.1 ≤ q.1) := by
  unfold mainPoints mapBins
  rw [hcqt]
  refine List.Pairwise.filterMap _ ?_ (List.pairwise_lt_range' _ _)
  intro b b' hbb p hp q hq
  obtain ⟨pl, -, px⟩ := mapBin_some _ _ _ _ _ _ _ _ _ hp
  obtain ⟨-, -, qx⟩ := mapBin_some _ _ _ _ _ _ _ _ _ hq
  rw [px, qx]
  have eb : ∀ n : Nat, binFreq false a.cqtFrequencies (freqScale cfg a) n
      = (n : ℝ) * freqScale cfg a := fun n => by simp [binFreq]
  rw [eb] at pl ⊢
  rw [eb]
  have hpos : 0 < (b : ℝ) * freqScale cfg a := lt_of_lt_of_le hmin pl
  have hb0 : (0 : ℝ) ≤ (b : ℝ) := Nat.cast_nonneg b
  have hscale : 0 < freqScale cfg a := by
    by_contra hn
    have : (b : ℝ) * freqScale cfg a ≤ 0 :=
      mul_nonpos_of_nonneg_of_nonpos hb0 (not_lt.mp hn)
    linarith
  have hcast : (b : ℝ) ≤ (b' : ℝ) := by exact_mod_cast hbb.le
  exact forwardX_mono s _ _ hpos (mul_le_mul_of_nonneg_right hcast hscale.le) hr hw

/-- C10. In the uniform (FFT) method with phosphor enabled, for a sample rate `> 0`, a
configuration with `0 < min_freq < max_freq`, a panel width `≥ 0` and any magnitudes, for
each pair of consecutive points `i`, `i + 1` of the main sequence left by `draw`: the
horizontal delta `dx` is non-negative (the points are in increasing bin order with
non-decreasing `x`), the phosphor branch runs, and the intensity it computes for the pair
is `beamEnergy * deltaT * sqrt(|dx|) / 2` with `deltaT = 1 / sampleRate`. -/
theorem uniform_intensity (cfg : Config) (a : AudioData) (s : Visualizer)
    (hp : cfg.fft.enable_phosphor = true) (hcqt : useCQT cfg a = false)
    (hfft : useFFT a = true) (_hsr : 0 < a.sampleRate)
    (hmin : 0 < cfg.fft.min_freq) (hlt : cfg.fft.min_freq < cfg.fft.max_freq)
    (hw : 0 ≤ s.width) (hc : CachesCurrent cfg s)
    (i : Nat) (hi : i + 1 < (draw cfg a s).state.fftPoints.length) :
    0 ≤ ((draw cfg a s).state.fftPoints.getD (i + 1) (0, 0)).1
        - ((draw cfg a s).state.fftPoints.getD i (0, 0)).1 ∧
    ∃ I D, (draw cfg a s).phosphor = some (I, D) ∧
      I.length = (draw cfg a s).state.fftPoints.length - 1 ∧
      D.length = (draw cfg a s).state.fftPoints.length - 1 ∧
      D.getD i 0 = 1 / a.sampleRate ∧
      I.getD i 0 = beamEnergy cfg a s false * (1 / a.sampleRate)
        * Real.sqrt |((draw cfg a s).state.fftPoints.getD (i + 1) (0, 0)).1
            - ((draw cfg a s).state.fftPoints.getD i (0, 0)).1| / 2 := by
  have huse : (useCQT cfg a || useFFT a) = true := by rw [hfft]; simp
  have hd := draw_fftPoints cfg a s huse
  rw [hd] at hi ⊢
  have hr : 0 < (updateCaches cfg s).logFreqRange := by
    rw [(updateCaches_current cfg s hc).2]
    exact logFreqRange_pos cfg hmin hlt
  have hw' : 0 ≤ (updateCaches cfg s).width := by rw [updateCaches_width]; exact hw
  have hsorted := mainPoints_sorted cfg a (updateCaches cfg s) hcqt hmin hr hw'
  have hi0 : i < (mainPoints cfg a (updateCaches cfg s)).length := by omega
  have hdx : 0 ≤ ((mainPoints cfg a (updateCaches cfg s)).getD (i + 1) (0, 0)).1
      - ((mainPoints cfg a (updateCaches cfg s)).getD i (0, 0)).1 := by
    rw [List.getD_eq_getElem _ _ hi, List.getD_eq_getElem _ _ hi0]
    exact sub_nonneg.mpr (List.pairwise_iff_getElem.mp hsorted i (i + 1) hi0 hi (by omega))
  have hne : mainPoints cfg a (updateCaches cfg s) ≠ [] := by
    intro e
    rw [e] at hi
    exact absurd hi (by simp)
  refine ⟨hdx, _, _, draw_phosphor cfg a s huse hp hne, intensityLinear_length _ _ _ _,
    dwellTimes_length _ _, ?_, ?_⟩
  · rw [dwellTimes_getD a _ i hi]
    rfl
  · rw [intensityLinear_getD _ _ _ _ i hi, hcqt, abs_of_nonneg hdx,
      beamEnergy_width cfg a s _ false (updateCaches_width cfg s)]
    unfold segIntensity deltaT
    simp only [Bool.false_eq_true, if_false]
    ring

/-- The main points of the two-bin FFT frame on a 20 Hz to 20 kHz range without CQT and
without left/right reconstruction: bins 1 and 2, at 1000 Hz and 2000 Hz. -/
theorem mainPoints_twoBinFrame (cfg : Config) (s : Visualizer)
    (hcqt : cfg.fft.enable_cqt = false) (hlr : isLeftRightMode cfg = false)
    (hmin : cfg.fft.min_freq = 20) (hmax : cfg.fft.max_freq = 20000) :
    mainPoints cfg twoBinFrame s
      = [(forwardX s 1000, forwardY cfg s 300 1000 1),
         (forwardX s 2000, forwardY cfg s 300 2000 1)] := by
  have hu : useCQT cfg twoBinFrame = false := by simp [useCQT, hcqt]
  have hm : mainMagnitudes cfg twoBinFrame false = [0, 1, 1] := by
    simp [mainMagnitudes, hlr, sourceMid, twoBinFrame]
  have hs : freqScale cfg twoBinFrame = 1000 := by
    have hf : fftSize twoBinFrame = 4 := rfl
    unfold freqScale
    rw [hu, hf]
    norm_num [twoBinFrame]
  have hlo : ∀ f : ℝ, 20 ≤ f → cfg.fft.min_freq ≤ f := fun f h => by rw [hmin]; exact h
  have hhi : ∀ f : ℝ, f ≤ 20000 → f ≤ cfg.fft.max_freq := fun f h => by rw [hmax]; exact h
  have k1 := mapBin_keep cfg s 300 false twoBinFrame.cqtFrequencies 1000
    [0, 1, 1] 1 1000 (by norm_num [binFreq]) (hlo _ (by norm_num)) (hhi _ (by norm_num))
  have k2 := mapBin_keep cfg s 300 false twoBinFrame.cqtFrequencies 1000
    [0, 1, 1] 2 2000 (by norm_num [binFreq]) (hlo _ (by norm_num)) (hhi _ (by norm_num))
  have e1 : ([0, 1, 1] : List ℝ).getD 1 0 = 1 := rfl
  have e2 : ([0, 1, 1] : List ℝ).getD 2 0 = 1 := rfl
  rw [e1] at k1
  rw [e2] at k2
  unfold mainPoints mapBins
  rw [hu, hm, hs]
  show List.filterMap _ [1, 2] = _
  have hwh : twoBinFrame.windowHeight = 300 := rfl
  rw [hwh]
  simp only [List.filterMap_cons, List.filterMap_nil, k1, k2]

theorem draw_twoBinFrame_length :
    (draw phosphorFFTConfig twoBinFrame (Visualizer.initial 800)).state.fftPoints.length = 2 := by
  rw [draw_fftPoints phosphorFFTConfig twoBinFrame (Visualizer.initial 800) rfl,
    mainPoints_twoBinFrame phosphorFFTConfig _ rfl rfl rfl rfl]
  rfl

/-- C10 on a two-bin FFT frame: `draw` leaves two main points and hands over the
intensity of the segment between them. -/
theorem uniform_intensity_witness :
    (draw phosphorFFTConfig twoBinFrame (Visualizer.initial 800)).state.fftPoints.length = 2 ∧
    ∃ I D, (draw phosphorFFTConfig twoBinFrame (Visualizer.initial 800)).phosphor
        = some (I, D) ∧
      I.getD 0 0 = beamEnergy phosphorFFTConfig twoBinFrame (Visualizer.initial 800) false
        * (1 / twoBinFrame.sampleRate)
        * Real.sqrt |((draw phosphorFFTConfig twoBinFrame
              (Visualizer.initial 800)).state.fftPoints.getD (0 + 1) (0, 0)).1
            - ((draw phosphorFFTConfig twoBinFrame
              (Visualizer.initial 800)).state.fftPoints.getD 0 (0, 0)).1| / 2 := by
  obtain ⟨-, I, D, h1, -, -, -, h2⟩ :=
    uniform_intensity phosphorFFTConfig twoBinFrame (Visualizer.initial 800) rfl rfl rfl
      (by norm_num [twoBinFrame])
      (by norm_num [phosphorFFTConfig, scenarioConfig])
      (by norm_num [phosphorFFTConfig, scenarioConfig])
      (by decide) (initial_current phosphorFFTConfig 800 (by decide)) 0
      (by rw [draw_twoBinFrame_length]; decide)
  exact ⟨draw_twoBinFrame_length, I, D, h1, h2⟩

/-! ## A silent frame after a frame with points -/

theorem afterTwoBinFrame_length : afterTwoBinFrame.fftPoints.length = 2 := by
  unfold afterTwoBinFrame
  rw [draw_fftPoints scenarioConfig twoBinFrame (Visualizer.initial 800) rfl,
    mainPoints_twoBinFrame scenarioConfig _ rfl rfl rfl rfl]
  rfl

/-- C5 (amended) instantiated: a silent frame drawn after a frame that left two main
points keeps those points. -/
theorem draw_no_source_keeps_points_witness :
    (draw scenarioConfig silentFrame afterTwoBinFrame).state.fftPoints
      = afterTwoBinFrame.fftPoints ∧
    (draw scenarioConfig silentFrame afterTwoBinFrame).state.alternateFFTPoints
      = afterTwoBinFrame.alternateFFTPoints ∧
    (draw scenarioConfig silentFrame afterTwoBinFrame).phosphor = none :=
  have h := draw_no_source_keeps_points scenarioConfig silentFrame afterTwoBinFrame
    (Or.inl rfl) (Or.inl rfl)
  ⟨h.1, h.2.1, h.2.2.1⟩

/-- C5 fails as stated: drawing the two-bin FFT frame and then a silent frame, in which
no source is usable, leaves two points in the main sequence, so the main and alternate
point sequences are not both empty after `draw`. -/
theorem draw_no_source_not_empty :
    (silentFrame.fftMagnitudesMid = [] ∨ silentFrame.fftMagnitudesSide = []) ∧
    (silentFrame.cqtMagnitudesMid = [] ∨ silentFrame.cqtMagnitudesSide = [] ∨
      scenarioConfig.fft.enable_cqt = false) ∧
    (draw scenarioConfig silentFrame
      (draw scenarioConfig twoBinFrame (Visualizer.initial 800)).state).state.fftPoints.length
        = 2 ∧
    ¬ ((draw scenarioConfig silentFrame
          (draw scenarioConfig twoBinFrame (Visualizer.initial 800)).state).state.fftPoints
          = [] ∧
       (draw scenarioConfig silentFrame
          (draw scenarioConfig twoBinFrame
            (Visualizer.initial 800)).state).state.alternateFFTPoints = []) := by
  have h1 : useFFT silentFrame = false := rfl
  have h2 : useCQT scenarioConfig silentFrame = false := rfl
  obtain ⟨hp, -, -⟩ := draw_no_source scenarioConfig silentFrame afterTwoBinFrame h2 h1
  rw [(updateCaches_points scenarioConfig afterTwoBinFrame).1] at hp
  have hlen := afterTwoBinFrame_length
  rw [← hp] at hlen
  refine ⟨Or.inl rfl, Or.inl rfl, hlen, ?_⟩
  rintro ⟨e, -⟩
  have e' : (draw scenarioConfig silentFrame afterTwoBinFrame).state.fftPoints = [] := e
  rw [e'] at hlen
  exact absurd hlen (by decide)

end FFTVisualizer
